import Mathlib

/-!
Shallow embedding of the WAL blob subsystem of `db/log_writer.cc` (TerarkDB):
the log `Writer` (record fragmentation across 32 KiB blocks), the
`WalBlobReader` (handle-driven payload reconstruction, CRC checks, blob
cache) and the index-file directory scan.

Bytes are modelled as `Nat` (values < 256 where it matters), byte buffers as
`List Nat`, 32/64-bit machine arithmetic as `Nat` with explicit `% 2^32`
where overflow matters.  The CRC32C and CRC16C checksum functions themselves
live outside this translation unit (`util/crc32c.h`, `terark/util/crc.hpp`);
theorems are parametric in them (`crcE : Nat → List Nat → Nat` is
`crc32c::Extend`, `crc16 : List Nat → Nat` is `terark::Crc16c_update 0`),
assuming only the algebraic laws the real functions satisfy where a proof
needs them.  Failed `assert`s (the code's hard failures) are modelled as an
error result (`none` / `false`).
-/

namespace TerarkWal

/-- `log::kBlockSize` (32768). -/
def kBlockSize : Nat := 32768

/-- `log::kHeaderSize`: checksum (4B) + length (2B) + type (1B). -/
def kHeaderSize : Nat := 7

/-- `log::kRecyclableHeaderSize`: legacy header + log number (4B). -/
def kRecyclableHeaderSize : Nat := 11

/-- Record type `kZeroType`. -/
def kZeroType : Nat := 0

/-- Record type `kFullType`. -/
def kFullType : Nat := 1

/-- Record type `kFirstType`. -/
def kFirstType : Nat := 2

/-- Record type `kMiddleType`. -/
def kMiddleType : Nat := 3

/-- Record type `kLastType`. -/
def kLastType : Nat := 4

/-- `kMaxRecordType` (recyclable last type). -/
def kMaxRecordType : Nat := 8

/-- `EncodeFixed32` (util/coding.h): little-endian 4-byte encoding. -/
def EncodeFixed32 (v : Nat) : List Nat :=
  [v % 256, v / 256 % 256, v / 2 ^ 16 % 256, v / 2 ^ 24 % 256]

/-- `DecodeFixed32` (util/coding.h): little-endian 4-byte decoding. -/
def DecodeFixed32 (l : List Nat) : Nat :=
  l.getD 0 0 + l.getD 1 0 * 256 + l.getD 2 0 * 2 ^ 16 + l.getD 3 0 * 2 ^ 24

/-- `crc32c::kMaskDelta`. -/
def kMaskDelta : Nat := 0xa282ead8

/-- `crc32c::Mask` (util/crc32c.h): rotate the 32-bit CRC right by 15 bits
(`(crc >> 15) | (crc << 17)` on `uint32_t`) and add `kMaskDelta`. -/
def Mask (crc : Nat) : Nat :=
  let c := crc % 2 ^ 32
  ((c >>> 15 ||| c <<< 17 % 2 ^ 32) + kMaskDelta) % 2 ^ 32

/-- Modelled from the spec: `crc32c::Unmask` (util/crc32c.h, not part of
src/) — the inverse of `Mask`: subtract `kMaskDelta` (as `uint32_t`) and
rotate left by 15 bits (`(rot >> 17) | (rot << 15)`). -/
def Unmask (masked_crc : Nat) : Nat :=
  let m := masked_crc % 2 ^ 32
  let rot := (m + 2 ^ 32 - kMaskDelta) % 2 ^ 32
  rot >>> 17 ||| rot <<< 15 % 2 ^ 32

/-- Bitwise-or of disjoint parts is addition: the low part sits below bit
`k`, the high part is a multiple of `2^k`. -/
theorem lor_mul_pow_eq_add (a b k : Nat) (ha : a < 2 ^ k) :
    a ||| b * 2 ^ k = a + b * 2 ^ k := by
  apply Nat.eq_of_testBit_eq
  intro i
  rw [Nat.testBit_or]
  have hmul : b * 2 ^ k = 2 ^ k * b := Nat.mul_comm _ _
  have hadd : a + b * 2 ^ k = 2 ^ k * b + a := by omega
  rw [hadd, Nat.testBit_mul_pow_two_add b ha i, hmul, Nat.testBit_mul_pow_two]
  by_cases hik : i < k
  · have h1 : ¬ (i ≥ k) := by omega
    simp [hik, h1]
  · have h1 : i ≥ k := by omega
    have h2 : a < 2 ^ i := lt_of_lt_of_le ha (Nat.pow_le_pow_right (by norm_num) h1)
    simp [hik, h1, Nat.testBit_lt_two_pow h2]

theorem shiftRight_15_eq (x : Nat) : x >>> 15 = x / 2 ^ 15 := by
  simp [Nat.shiftRight_eq_div_pow]

theorem shiftRight_17_eq (x : Nat) : x >>> 17 = x / 2 ^ 17 := by
  simp [Nat.shiftRight_eq_div_pow]

/-- `Unmask` inverts `Mask` on every 32-bit value. -/
theorem unmask_mask (x : Nat) (hx : x < 2 ^ 32) : Unmask (Mask x) = x := by
  have hxmod : x % 2 ^ 32 = x := Nat.mod_eq_of_lt hx
  have hdelta : kMaskDelta = 0xa282ead8 := rfl
  set q := x / 2 ^ 15 with hq
  set r := x % 2 ^ 15 with hr
  have hqlt : q < 2 ^ 17 := by rw [hq]; omega
  have hrlt : r < 2 ^ 15 := by rw [hr]; omega
  have hxqr : x = 2 ^ 15 * q + r := by rw [hq, hr]; omega
  have hsh1 : x >>> 15 = q := by rw [shiftRight_15_eq, hq]
  have hsh2 : x <<< 17 % 2 ^ 32 = r * 2 ^ 17 := by
    rw [Nat.shiftLeft_eq]
    conv_lhs => rw [hxqr]
    have he : (2 ^ 15 * q + r) * 2 ^ 17 = q * 2 ^ 32 + r * 2 ^ 17 := by ring
    rw [he]
    omega
  have hrotlt : q + r * 2 ^ 17 < 2 ^ 32 := by
    have hb : r * 2 ^ 17 ≤ (2 ^ 15 - 1) * 2 ^ 17 := by
      apply Nat.mul_le_mul_right
      omega
    omega
  simp only [Mask, Unmask, hxmod]
  rw [hsh1, hsh2, lor_mul_pow_eq_add q r 17 hqlt]
  have hrot_back :
      ((q + r * 2 ^ 17 + kMaskDelta) % 2 ^ 32 % 2 ^ 32 + 2 ^ 32 - kMaskDelta) % 2 ^ 32 =
      q + r * 2 ^ 17 := by
    rw [hdelta]
    omega
  rw [hrot_back]
  have hsh3 : (q + r * 2 ^ 17) >>> 17 = r := by
    rw [shiftRight_17_eq]
    omega
  have hsh4 : (q + r * 2 ^ 17) <<< 15 % 2 ^ 32 = q * 2 ^ 15 := by
    rw [Nat.shiftLeft_eq]
    have he : (q + r * 2 ^ 17) * 2 ^ 15 = r * 2 ^ 32 + q * 2 ^ 15 := by ring
    rw [he]
    omega
  rw [hsh3, hsh4, lor_mul_pow_eq_add r q 15 hrlt]
  omega

/-- C8: for every 32-bit value `x`, `unmask (mask x) = x`, where `mask` is
the CRC storage transform `((x >> 15) | (x << 17)) + 0xa282ead8 mod 2^32`
used by `Writer::EmitPhysicalRecord` when storing header CRCs and inverted
by `WalBlobReader::GetBlob` when checking them. -/
theorem c8_mask_unmask (x : Nat) (hx : x < 2 ^ 32) : Unmask (Mask x) = x :=
  unmask_mask x hx

/-- Witness for C8 at the concrete 32-bit value `0xdeadbeef`. -/
theorem c8_mask_unmask_witness :
    0xdeadbeef < 2 ^ 32 ∧ Unmask (Mask 0xdeadbeef) = 0xdeadbeef :=
  ⟨by norm_num, c8_mask_unmask 0xdeadbeef (by norm_num)⟩

/-! ## Log writer (`Writer::AddRecord`, `Writer::EmitPhysicalRecord`) -/

/-- The append-only destination file (`WritableFileWriter`): its byte
content, plus a schedule `fails` assigning an outcome to each I/O
operation (`Append`/`Flush`), indexed by the running operation counter
`op`.  A failed append writes nothing. -/
structure Dest where
  content : List Nat
  fails : Nat → Bool
  op : Nat

/-- `WritableFileWriter::Append`. -/
def Dest.append (d : Dest) (bytes : List Nat) : Bool × Dest :=
  if d.fails d.op then (false, { d with op := d.op + 1 })
  else (true, { d with content := d.content ++ bytes, op := d.op + 1 })

/-- `WritableFileWriter::Flush`. -/
def Dest.flush (d : Dest) : Bool × Dest :=
  if d.fails d.op then (false, { d with op := d.op + 1 })
  else (true, { d with op := d.op + 1 })

/-- `log::Writer` state (`recycle_log_files_` is asserted to be 0 in
`AddRecord`, so only the legacy 7-byte header path is reachable and is the
one modelled).  `wal_offset_of_wb_content` is the field of the supplied
`WriteThread::Writer` handle; `none` models the unset value
`uint64_t(-1)`. -/
structure WriterState where
  dest : Dest
  block_offset : Nat
  num_entries : Nat
  block_counts : Nat
  manual_flush : Bool
  wal_offset_of_wb_content : Option Nat

/-- `type_crc_[t] = crc32c::Value(&t, 1)`, the CRC of the single type
byte, precomputed in the `Writer` constructor. -/
def typeCrc (crcE : Nat → List Nat → Nat) (t : Nat) : Nat := crcE 0 [t]

/-- The 7-byte legacy record header built by `Writer::EmitPhysicalRecord`:
masked CRC (4B little-endian), payload length low/high bytes, type byte.
The CRC extends the precomputed type-byte CRC over the payload. -/
def recordHeader (crcE : Nat → List Nat → Nat) (t : Nat) (payload : List Nat) : List Nat :=
  EncodeFixed32 (Mask (crcE (typeCrc crcE t) payload)) ++
    [payload.length % 256, payload.length / 256 % 256, t % 256]

/-- `Writer::EmitPhysicalRecord` (legacy format): append header then
payload, flush unless `manual_flush_`; `block_offset_ += header_size + n`
happens unconditionally, even after a failed append or flush. -/
def EmitPhysicalRecord (crcE : Nat → List Nat → Nat) (ws : WriterState) (t : Nat)
    (payload : List Nat) : Bool × WriterState :=
  let adv : Dest → WriterState := fun d =>
    { ws with dest := d,
              block_offset := ws.block_offset + kHeaderSize + payload.length }
  let r1 := ws.dest.append (recordHeader crcE t payload)
  if r1.1 then
    let r2 := r1.2.append payload
    if r2.1 then
      if ws.manual_flush then (true, adv r2.2)
      else
        let r3 := r2.2.flush
        (r3.1, adv r3.2)
    else (false, adv r2.2)
  else (false, adv r1.2)

/-- Modelled from the spec: `GetFirstEntryPhysicalOffset` (declared in
db/log_writer.h, not part of src/) — the absolute file offset of the first
payload byte of the record about to be written: current file size plus
header size, starting in the current block when `avail ≥ header_size` and
otherwise at the start of the next block. -/
def GetFirstEntryPhysicalOffset (file_size header_size avail : Nat) : Nat :=
  if header_size ≤ avail then file_size + header_size
  else (file_size / kBlockSize + 1) * kBlockSize + header_size

/-- Lines 126-134 of `Writer::AddRecord`: when a writer handle `wt` is
supplied and its `wal_offset_of_wb_content_` is still unset, record the
physical offset of the write-batch content,
`GetFirstEntryPhysicalOffset(dest_->GetFileSize(), header_size, avail)`
with `avail = kBlockSize - block_offset_ - header_size`. -/
def walOffUpd (wt : Bool) (ws1 : WriterState) : WriterState :=
  let avail := kBlockSize - ws1.block_offset - kHeaderSize
  let off := GetFirstEntryPhysicalOffset ws1.dest.content.length kHeaderSize avail
  if wt ∧ ws1.wal_offset_of_wb_content = none then
    { ws1 with wal_offset_of_wb_content := some off }
  else ws1

/-- The second half of one iteration of the fragment-and-emit do-while
loop of `Writer::AddRecord` (lines 111-139), entered with `ws1` already
normalized so that at least `header_size` bytes remain in the current
block: pick the fragment of `min left avail` bytes and its type, record
the write-batch content offset into the supplied writer handle once, emit
the physical record, and either loop (via `rec`, `while (s.ok() && left >
0)`) or stop. -/
def addRecordEmit (crcE : Nat → List Nat → Nat) (wt : Bool) (ws1 : WriterState)
    (ptr : List Nat) (first : Bool)
    (rec : WriterState → List Nat → Option (Bool × WriterState)) :
    Option (Bool × WriterState) :=
  let avail := kBlockSize - ws1.block_offset - kHeaderSize
  let frag := min ptr.length avail
  let t := if first then (if ptr.length = frag then kFullType else kFirstType)
           else (if ptr.length = frag then kLastType else kMiddleType)
  let ws2 := walOffUpd wt ws1
  let r := EmitPhysicalRecord crcE ws2 t (ptr.take frag)
  if r.1 ∧ 0 < ptr.length - frag then rec r.2 (ptr.drop frag)
  else some (r.1, r.2)

/-- One iteration of the fragment-and-emit do-while loop of
`Writer::AddRecord` (lines 89-139): when fewer than `header_size` bytes
remain in the current block, pad them with NULs (breaking out of the loop
with the failed status if the pad append fails) and switch to a new block,
then proceed to `addRecordEmit`. -/
def addRecordBody (crcE : Nat → List Nat → Nat) (wt : Bool) (ws : WriterState)
    (ptr : List Nat) (first : Bool)
    (rec : WriterState → List Nat → Option (Bool × WriterState)) :
    Option (Bool × WriterState) :=
  let leftover := kBlockSize - ws.block_offset
  if leftover < kHeaderSize then
    if 0 < leftover then
      let r := ws.dest.append (List.replicate leftover 0)
      if r.1 then
        addRecordEmit crcE wt
          { ws with dest := r.2, block_offset := 0,
                    block_counts := ws.block_counts + 1 } ptr first rec
      else some (false, { ws with dest := r.2 })
    else
      addRecordEmit crcE wt
        { ws with block_offset := 0, block_counts := ws.block_counts + 1 } ptr first rec
  else addRecordEmit crcE wt ws ptr first rec

/-- The do-while loop of `Writer::AddRecord`, with an explicit recursion
bound (`AddRecord` supplies `2 * |payload| + 2`, which always suffices:
each iteration either consumes payload bytes or — at most once, when
exactly `header_size` bytes remain free in the current block — emits a
zero-length fragment and moves to the next block; see
`addRecordLoop_isSome`). -/
def addRecordLoop (crcE : Nat → List Nat → Nat) (wt : Bool) :
    Nat → WriterState → List Nat → Bool → Option (Bool × WriterState)
  | 0, _, _, _ => none
  | fuel + 1, ws, ptr, first =>
    addRecordBody crcE wt ws ptr first
      (fun ws2 rest => addRecordLoop crcE wt fuel ws2 rest false)

theorem addRecordLoop_succ (crcE : Nat → List Nat → Nat) (wt : Bool) (fuel : Nat)
    (ws : WriterState) (ptr : List Nat) (first : Bool) :
    addRecordLoop crcE wt (fuel + 1) ws ptr first =
      addRecordBody crcE wt ws ptr first
        (fun ws2 rest => addRecordLoop crcE wt fuel ws2 rest false) := rfl

/-- `Writer::AddRecord`: run the fragment-and-emit loop, then
unconditionally `num_entries_ += num_entries`. -/
def AddRecord (crcE : Nat → List Nat → Nat) (wt : Bool) (ws : WriterState)
    (slice : List Nat) (num_entries : Nat) : Bool × WriterState :=
  match addRecordLoop crcE wt (2 * slice.length + 2) ws slice true with
  | some r => (r.1, { r.2 with num_entries := r.2.num_entries + num_entries })
  | none => (false, { ws with num_entries := ws.num_entries + num_entries })

/-- A freshly constructed `Writer` on a new (empty) log file:
`block_offset_ = 0`, `num_entries_ = 0`, `block_counts_ = 0`. -/
def freshWriter (fails : Nat → Bool) (manual_flush : Bool) : WriterState :=
  { dest := { content := [], fails := fails, op := 0 },
    block_offset := 0, num_entries := 0, block_counts := 0,
    manual_flush := manual_flush, wal_offset_of_wb_content := none }

/-! ## Blob reader (`WalBlobReader::GetBlob`, `Blob::ShrinkVal`) -/

/-- Modelled from the spec: `DefaultLogHandle` (declared in db/log_writer.h,
not part of src/) — the fixed-width handle `(offset, length, head_crc,
tail_crc)` into one log file. -/
structure DefaultLogHandle where
  offset : Nat
  length : Nat
  head_crc : Nat
  tail_crc : Nat
deriving DecidableEq

/-- Modelled from the spec: `GetPhysicalLength` (declared in
db/log_writer.h, not part of src/) — number of on-disk bytes occupied by a
record of `length` logical bytes whose first payload byte is at `offset`:
the remainder of the starting block, then full blocks, then (header +
tail) in the final block. -/
def GetPhysicalLength (length offset header_size : Nat) : Nat :=
  let avail_first := kBlockSize - offset % kBlockSize
  if length ≤ avail_first then length
  else
    let rest := length - avail_first
    let per_block := kBlockSize - header_size
    let full := rest / per_block
    let tail := rest % per_block
    avail_first + full * kBlockSize + (if tail = 0 then 0 else header_size + tail)

/-- `head_size` as computed by `WalBlobReader::GetBlob` (lines 295-299):
the whole logical length for a single-block record, else the bytes of the
first fragment (up to the first block boundary). -/
def headSizeOf (h : DefaultLogHandle) (whs : Nat) : Nat :=
  if GetPhysicalLength h.length h.offset whs > h.length
  then kBlockSize - h.offset % kBlockSize
  else h.length

/-- `tail_size` as computed by `WalBlobReader::GetBlob` (lines 296-302). -/
def tailSizeOf (h : DefaultLogHandle) (whs : Nat) : Nat :=
  if GetPhysicalLength h.length h.offset whs > h.length
  then (h.length - headSizeOf h whs) % (kBlockSize - whs)
  else 0

/-- `memmove(buf + dst, buf + src, n)` on a byte list (the reader only
moves data leftwards, `dst ≤ src`). -/
def memmove (buf : List Nat) (dst src n : Nat) : List Nat :=
  buf.take dst ++ (buf.drop src).take n ++ buf.drop (dst + n)

/-- The while loop of `Blob::ShrinkVal` (lines 224-233): `cur` is
`cur_offset - buf_`, `remain` is `remain_bytes`, `rhs` is
`record_header_size`.  When `cur_size < rhs` the C++ computes the
`size_t` underflow `cur_size - rhs` and `memmove`s an enormous range —
undefined behaviour, modelled as the error result `none`. -/
def shrinkLoop (buf : List Nat) (cur remain rhs : Nat) : Option (List Nat) :=
  if remain = 0 then some (buf.take cur)
  else
    let cur_size := min remain (kBlockSize - rhs)
    if cur_size < rhs then none
    else
      let actual_size := cur_size - rhs
      shrinkLoop (memmove buf cur (cur + rhs) actual_size) (cur + actual_size)
        (remain - cur_size) rhs
termination_by remain
decreasing_by
  have hbs : kBlockSize = 32768 := rfl
  simp only [cur_size] at *
  omega

/-- `Blob::ShrinkVal(head_size, record_header_size)`: compact the raw
physical bytes in place, then keep `cur_offset - buf_` bytes. -/
def ShrinkVal (buf : List Nat) (head_size rhs : Nat) : Option (List Nat) :=
  shrinkLoop buf head_size (buf.length - head_size) rhs

/-- The middle-fragment CRC scan of `WalBlobReader::GetBlob`
(lines 329-345), with pointers as byte offsets from the start of the read
buffer (`Int`, since `tailer = data - tail_size` points before the
buffer): decode the fragment header at `header`, require type `MIDDLE`,
require the unmasked stored CRC to equal `crc32c::Value(header + 6,
length + wal_header_size - 6)`, then advance by one block while
`header ≤ tailer - kBlockSize`. -/
def middleScanLoop (crcE : Nat → List Nat → Nat) (whs : Nat) (buf : List Nat)
    (header limit : Int) : Bool :=
  if header ≤ limit then
    let a := buf.getD (header + 4).toNat 0 % 256
    let b := buf.getD (header + 5).toNat 0 % 256
    let t := buf.getD (header + 6).toNat 0
    let len := a ||| b <<< 8
    if t ≠ kMiddleType then false
    else
      let expected_crc := Unmask (DecodeFixed32 ((buf.drop header.toNat).take 4))
      let actual_crc := crcE 0 ((buf.drop (header + 6).toNat).take (len + whs - 6))
      if actual_crc ≠ expected_crc then false
      else middleScanLoop crcE whs buf (header + kBlockSize) limit
  else true
termination_by (limit + 1 - header).toNat
decreasing_by
  have hbs : (kBlockSize : Int) = 32768 := rfl
  omega

/-- The middle scan as invoked by `GetBlob`: `header` starts at
`buf + head_size` and `tailer` is `blob->slice_.data() - tail_size`
(line 330), i.e. offset `-tail_size`, so the bound is
`-tail_size - kBlockSize`. -/
def middleScan (crcE : Nat → List Nat → Nat) (whs : Nat) (buf : List Nat)
    (head_size tail_size : Nat) : Bool :=
  middleScanLoop crcE whs buf (head_size : Int) (-(tail_size : Int) - (kBlockSize : Int))

/-- The blob cache, keyed by `GenerateCacheUniqueId` = the file's unique-id
prefix concatenated with the raw handle bytes (modelled as the pair). -/
def BlobCache : Type := List ((List Nat × DefaultLogHandle) × List Nat)

/-- `Cache::Lookup`. -/
def cacheLookup (c : BlobCache) (k : List Nat × DefaultLogHandle) : Option (List Nat) :=
  (List.find? (fun e => e.1 = k) c).map (fun e => e.2)

/-- `Cache::Insert` (a later insert for the same key shadows the old
entry). -/
def cacheInsert (c : BlobCache) (k : List Nat × DefaultLogHandle) (v : List Nat) :
    BlobCache :=
  (k, v) :: c

/-- `WalBlobReader::GetBlob` over a log file `file`: returns the
reconstructed payload (`none` on a failed check — the code's
`assert(false)` hard failures), the updated blob cache, and whether an
underlying file read was performed.  `uid` is the file's unique-id cache
prefix, `whs` is `wal_header_size_`. -/
def GetBlob (crc16 : List Nat → Nat) (crcE : Nat → List Nat → Nat) (uid : List Nat)
    (whs : Nat) (file : List Nat) (cache : BlobCache) (h : DefaultLogHandle) :
    Option (List Nat) × BlobCache × Bool :=
  let key := (uid, h)
  match cacheLookup cache key with
  | some b => (some b, cache, false)
  | none =>
    let phys := GetPhysicalLength h.length h.offset whs
    let head_size := headSizeOf h whs
    let tail_size := tailSizeOf h whs
    let buf := (file.drop h.offset).take phys
    if buf.length = 0 ∨ buf.length ≠ phys then (none, cache, true)
    else if head_size ≠ 0 ∧ crc16 (buf.take head_size) ≠ h.head_crc then (none, cache, true)
    else if tail_size ≠ 0 ∧ crc16 (buf.drop (buf.length - tail_size)) ≠ h.tail_crc then
      (none, cache, true)
    else if ¬ middleScan crcE whs buf head_size tail_size then (none, cache, true)
    else
      match (if head_size ≠ h.length then ShrinkVal buf head_size whs else some buf) with
      | none => (none, cache, true)
      | some b => (some b, cacheInsert cache key b, true)

/-! ## Index-file directory (`WalBlobReader::GetCFWalTupleOffsets`,
`WalBlobReader::NewIteratorWithCF`) -/

/-- Modelled from the spec: `WalCfIndex` (declared in db/log_writer.h, not
part of src/) — one directory entry `(cf_id, offset, count, crc32)` of the
index file.  The directory holds `WalIndexFooter::count_` such entries, so
the parsed entry list has length `footer.count`. -/
structure WalCfIndex where
  id : Nat
  offset : Nat
  count : Nat
  crc32 : Nat
deriving DecidableEq

/-- `WalBlobReader::GetCFWalTupleOffsets` (lines 362-385) together with the
caller's initialization `cf_offset = 0, cf_entries = 0` (lines 415-416):
scan all directory entries, overwriting the result on every id match (last
match wins), then `assert(find || wif->count_ == 0)` — the failed assert is
modelled as `none`. -/
def GetCFWalTupleOffsets (entries : List WalCfIndex) (cf_id : Nat) :
    Option (Nat × Nat) :=
  let scan := entries.foldl
    (fun (acc : Nat × Nat × Bool) wci =>
      if wci.id = cf_id then (wci.offset, wci.count, true) else acc)
    (0, 0, false)
  if scan.2.2 ∨ entries.length = 0 then some (scan.1, scan.2.1) else none

/-- `WalBlobReader::NewIteratorWithCF` after the index file has been
mmapped and size-checked successfully: resolve the column family in the
directory and return the `(cf_offset, cf_entries)` pair the
`WalBlobIterator` is constructed from (an iterator with `cf_entries = 0`
is empty: `Valid()` is immediately false). -/
def NewIteratorWithCF (entries : List WalCfIndex) (cf_id : Nat) :
    Option (Nat × Nat) :=
  GetCFWalTupleOffsets entries cf_id

/-! ## Helper lemmas about `EmitPhysicalRecord` and the `AddRecord` loop -/

theorem emit_block_offset (crcE : Nat → List Nat → Nat) (ws : WriterState) (t : Nat)
    (p : List Nat) :
    (EmitPhysicalRecord crcE ws t p).2.block_offset =
      ws.block_offset + kHeaderSize + p.length := by
  simp only [EmitPhysicalRecord, Dest.append, Dest.flush]
  split_ifs <;> rfl

theorem emit_num_entries (crcE : Nat → List Nat → Nat) (ws : WriterState) (t : Nat)
    (p : List Nat) :
    (EmitPhysicalRecord crcE ws t p).2.num_entries = ws.num_entries := by
  simp only [EmitPhysicalRecord, Dest.append, Dest.flush]
  split_ifs <;> rfl

theorem emit_block_counts (crcE : Nat → List Nat → Nat) (ws : WriterState) (t : Nat)
    (p : List Nat) :
    (EmitPhysicalRecord crcE ws t p).2.block_counts = ws.block_counts := by
  simp only [EmitPhysicalRecord, Dest.append, Dest.flush]
  split_ifs <;> rfl

theorem emit_manual_flush (crcE : Nat → List Nat → Nat) (ws : WriterState) (t : Nat)
    (p : List Nat) :
    (EmitPhysicalRecord crcE ws t p).2.manual_flush = ws.manual_flush := by
  simp only [EmitPhysicalRecord, Dest.append, Dest.flush]
  split_ifs <;> rfl

theorem emit_wal_offset (crcE : Nat → List Nat → Nat) (ws : WriterState) (t : Nat)
    (p : List Nat) :
    (EmitPhysicalRecord crcE ws t p).2.wal_offset_of_wb_content =
      ws.wal_offset_of_wb_content := by
  simp only [EmitPhysicalRecord, Dest.append, Dest.flush]
  split_ifs <;> rfl

theorem emit_ok_content (crcE : Nat → List Nat → Nat) (ws : WriterState) (t : Nat)
    (p : List Nat) (hok : (EmitPhysicalRecord crcE ws t p).1 = true) :
    (EmitPhysicalRecord crcE ws t p).2.dest.content =
      ws.dest.content ++ recordHeader crcE t p ++ p := by
  simp only [EmitPhysicalRecord, Dest.append, Dest.flush] at *
  split_ifs at * <;> simp_all

/-- With a failure-free schedule and `manual_flush`, `EmitPhysicalRecord`
succeeds and performs exactly two appends. -/
theorem emit_nofail (crcE : Nat → List Nat → Nat) (ws : WriterState) (t : Nat)
    (p : List Nat) (hnf : ∀ k, ws.dest.fails k = false) (hmf : ws.manual_flush = true) :
    EmitPhysicalRecord crcE ws t p =
      (true,
        { ws with
            dest := { content := ws.dest.content ++ recordHeader crcE t p ++ p,
                      fails := ws.dest.fails, op := ws.dest.op + 2 },
            block_offset := ws.block_offset + kHeaderSize + p.length }) := by
  simp only [EmitPhysicalRecord, Dest.append]
  simp [hnf, hmf]

/-! ## C2: the middle-fragment CRC scan is dead code -/

/-- The loop bound `tailer - kBlockSize` with
`tailer = blob->slice_.data() - tail_size` lies strictly before the
buffer, so the scan condition is false at entry. -/
theorem middleScanLoop_eq_true (crcE : Nat → List Nat → Nat) (whs : Nat)
    (buf : List Nat) (hs ts : Nat) :
    middleScanLoop crcE whs buf (hs : Int) (-(ts : Int) - (kBlockSize : Int)) = true := by
  unfold middleScanLoop
  have hbs : (kBlockSize : Int) = 32768 := rfl
  have hcond : ¬ ((hs : Int) ≤ -(ts : Int) - (kBlockSize : Int)) := by omega
  simp [hcond]

theorem middleScan_eq_true (crcE : Nat → List Nat → Nat) (whs : Nat)
    (buf : List Nat) (head_size tail_size : Nat) :
    middleScan crcE whs buf head_size tail_size = true :=
  middleScanLoop_eq_true crcE whs buf head_size tail_size

/-- C2 (code bug): the claim says every interior MIDDLE fragment is
CRC-checked during `get_blob` and a wrong tag or CRC is detected.  In the
code the scan loop compares `header = buf + head_size` against
`tailer - kBlockSize` where `tailer = blob->slice_.data() - tail_size`
points *before* the buffer (line 330), so for every buffer, head size and
tail size the loop body never executes: the scan of `GetBlob` always
passes and checks nothing. -/
theorem c2_middle_scan_dead (crcE : Nat → List Nat → Nat) (whs : Nat)
    (buf : List Nat) (head_size tail_size : Nat) :
    middleScan crcE whs buf head_size tail_size = true :=
  middleScanLoop_eq_true crcE whs buf head_size tail_size

/-! ## C10: no rollback of writer state on error -/

/-- The once-only recording of the write-batch offset into the writer
handle changes no other field of the writer state. -/
theorem walOffUpd_dest (wt : Bool) (ws1 : WriterState) :
    (walOffUpd wt ws1).dest = ws1.dest := by
  unfold walOffUpd; split <;> rfl

theorem walOffUpd_block_offset (wt : Bool) (ws1 : WriterState) :
    (walOffUpd wt ws1).block_offset = ws1.block_offset := by
  unfold walOffUpd; split <;> rfl

theorem walOffUpd_num_entries (wt : Bool) (ws1 : WriterState) :
    (walOffUpd wt ws1).num_entries = ws1.num_entries := by
  unfold walOffUpd; split <;> rfl

theorem walOffUpd_block_counts (wt : Bool) (ws1 : WriterState) :
    (walOffUpd wt ws1).block_counts = ws1.block_counts := by
  unfold walOffUpd; split <;> rfl

theorem walOffUpd_manual_flush (wt : Bool) (ws1 : WriterState) :
    (walOffUpd wt ws1).manual_flush = ws1.manual_flush := by
  unfold walOffUpd; split <;> rfl

theorem addRecordEmit_num_entries (crcE : Nat → List Nat → Nat) (wt : Bool)
    (ws1 : WriterState) (ptr : List Nat) (first : Bool)
    (rec : WriterState → List Nat → Option (Bool × WriterState))
    (hrec : ∀ ws2 rest r2, rec ws2 rest = some r2 → r2.2.num_entries = ws2.num_entries)
    (r : Bool × WriterState)
    (h : addRecordEmit crcE wt ws1 ptr first rec = some r) :
    r.2.num_entries = ws1.num_entries := by
  simp only [addRecordEmit] at h
  split_ifs at h <;>
    first
      | exact (hrec _ _ _ h).trans ((emit_num_entries ..).trans (walOffUpd_num_entries ..))
      | (cases h; exact (emit_num_entries ..).trans (walOffUpd_num_entries ..))

theorem addRecordLoop_num_entries (crcE : Nat → List Nat → Nat) (wt : Bool) :
    ∀ (fuel : Nat) (ws : WriterState) (ptr : List Nat) (first : Bool)
      (r : Bool × WriterState),
      addRecordLoop crcE wt fuel ws ptr first = some r →
      r.2.num_entries = ws.num_entries := by
  intro fuel
  induction fuel with
  | zero => intro ws ptr first r hr; simp [addRecordLoop] at hr
  | succ n ih =>
    intro ws ptr first r hr
    rw [addRecordLoop_succ] at hr
    simp only [addRecordBody] at hr
    have hrec : ∀ ws2 rest r2,
        addRecordLoop crcE wt n ws2 rest false = some r2 →
        r2.2.num_entries = ws2.num_entries := fun ws2 rest r2 hx => ih ws2 rest false r2 hx
    split_ifs at hr with h1 h2 h3
    · exact (addRecordEmit_num_entries crcE wt _ ptr first _ hrec r hr).trans rfl
    · cases hr; rfl
    · exact (addRecordEmit_num_entries crcE wt _ ptr first _ hrec r hr).trans rfl
    · exact (addRecordEmit_num_entries crcE wt _ ptr first _ hrec r hr).trans rfl

/-- C10 (implicit): `add_record` updates writer state non-atomically on
error.  `Writer::AddRecord` line 140 adds `batch_entry_count` to
`num_entries_` unconditionally after the loop, whether or not it aborted
on a failed append or flush; and `Writer::EmitPhysicalRecord` line 191
advances `block_offset_` past the fragment's header and payload
unconditionally, even when the append or flush of that fragment failed.
Nothing is rolled back on an error return. -/
theorem c10_non_atomic_error_update (crcE : Nat → List Nat → Nat) (wt : Bool)
    (ws : WriterState) (slice : List Nat) (num_entries : Nat) (t : Nat)
    (p : List Nat) :
    (AddRecord crcE wt ws slice num_entries).2.num_entries =
        ws.num_entries + num_entries ∧
      (EmitPhysicalRecord crcE ws t p).2.block_offset =
        ws.block_offset + kHeaderSize + p.length := by
  constructor
  · unfold AddRecord
    cases hr : addRecordLoop crcE wt (2 * slice.length + 2) ws slice true with
    | none => rfl
    | some r =>
      simp only
      rw [addRecordLoop_num_entries crcE wt _ ws slice true r hr]
  · exact emit_block_offset ..


/-! ## C7: column family not found in the index directory -/

theorem cf_scan_no_match (cf_id : Nat) :
    ∀ (entries : List WalCfIndex), (∀ e ∈ entries, e.id ≠ cf_id) →
    ∀ acc : Nat × Nat × Bool,
      entries.foldl
        (fun (acc : Nat × Nat × Bool) wci =>
          if wci.id = cf_id then (wci.offset, wci.count, true) else acc) acc = acc := by
  intro entries
  induction entries with
  | nil => intro _ acc; rfl
  | cons e tl ih =>
    intro hnone acc
    simp only [List.foldl_cons]
    rw [if_neg (hnone e (by simp))]
    exact ih (fun x hx => hnone x (by simp [hx])) acc

/-- C7: when `new_iterator_with_cf` is given a `cf_id` matching no entry of
the index-file directory, it yields an empty iterator (`cf_offset = 0`,
`cf_entries = 0`, so `Valid()` is immediately false) if the footer count is
zero (i.e. the directory is empty), and otherwise fails hard
(`assert(find || wif->count_ == 0)`), never an iterator over arbitrary
data. -/
theorem c7_cf_not_found (entries : List WalCfIndex) (cf_id : Nat)
    (hnone : ∀ e ∈ entries, e.id ≠ cf_id) :
    (entries = [] → NewIteratorWithCF entries cf_id = some (0, 0)) ∧
    (entries ≠ [] → NewIteratorWithCF entries cf_id = none) := by
  unfold NewIteratorWithCF GetCFWalTupleOffsets
  rw [cf_scan_no_match cf_id entries hnone]
  constructor
  · intro he
    subst he
    rfl
  · intro he
    have hlen : entries.length ≠ 0 := fun h0 => he (List.length_eq_zero.mp h0)
    simp [hlen]

/-- Witness for C7: a one-entry directory without the requested id fails
hard, the empty directory yields the empty iterator. -/
theorem c7_cf_not_found_witness :
    NewIteratorWithCF [⟨3, 40, 5, 0⟩] 9 = none ∧
    NewIteratorWithCF ([] : List WalCfIndex) 9 = some (0, 0) :=
  ⟨(c7_cf_not_found [⟨3, 40, 5, 0⟩] 9 (by decide)).2 (by decide),
   (c7_cf_not_found [] 9 (by intro e he; cases he)).1 rfl⟩

/-! ## Writer block-alignment invariant (C4) and handle-offset legality (C5) -/

/-- The block-alignment invariant of the writer:
`file_size = block_counts * kBlockSize + block_offset` (the assertion at
line 128) with `block_offset ≤ kBlockSize`. -/
def writerInv (ws : WriterState) : Prop :=
  ws.dest.content.length = ws.block_counts * kBlockSize + ws.block_offset ∧
  ws.block_offset ≤ kBlockSize

/-- Every offset ever recorded in the writer handle satisfies
`offset mod kBlockSize ≥ kHeaderSize`. -/
def walOffOk (o : Option Nat) : Prop :=
  ∀ off, o = some off → kHeaderSize ≤ off % kBlockSize

theorem recordHeader_length (crcE : Nat → List Nat → Nat) (t : Nat) (p : List Nat) :
    (recordHeader crcE t p).length = kHeaderSize := rfl

theorem dest_append_ok_content (d : Dest) (bs : List Nat)
    (h : (d.append bs).1 = true) :
    (d.append bs).2.content = d.content ++ bs := by
  unfold Dest.append at *
  split_ifs at * with hf
  all_goals simp_all

/-- A successful `EmitPhysicalRecord` of a fragment that fits the current
block preserves the block-alignment invariant. -/
theorem emit_preserves_inv (crcE : Nat → List Nat → Nat) (ws2 : WriterState)
    (t : Nat) (p : List Nat)
    (hok : (EmitPhysicalRecord crcE ws2 t p).1 = true)
    (hinv : ws2.dest.content.length = ws2.block_counts * kBlockSize + ws2.block_offset)
    (hfit : ws2.block_offset + kHeaderSize + p.length ≤ kBlockSize) :
    writerInv (EmitPhysicalRecord crcE ws2 t p).2 := by
  constructor
  · rw [emit_ok_content crcE ws2 t p hok, emit_block_counts, emit_block_offset]
    simp only [List.length_append, recordHeader_length]
    omega
  · rw [emit_block_offset]
    exact hfit

theorem addRecordEmit_inv (crcE : Nat → List Nat → Nat) (wt : Bool)
    (ws1 : WriterState) (ptr : List Nat) (first : Bool)
    (rec : WriterState → List Nat → Option (Bool × WriterState))
    (hrec : ∀ ws2 rest r2, rec ws2 rest = some r2 → r2.1 = true →
      writerInv ws2 → writerInv r2.2)
    (hinv : ws1.dest.content.length = ws1.block_counts * kBlockSize + ws1.block_offset)
    (hbo : ws1.block_offset + kHeaderSize ≤ kBlockSize)
    (r : Bool × WriterState)
    (h : addRecordEmit crcE wt ws1 ptr first rec = some r) (hok : r.1 = true) :
    writerInv r.2 := by
  simp only [addRecordEmit] at h
  have hinv2 : ∀ t p, p.length ≤ kBlockSize - ws1.block_offset - kHeaderSize →
      (EmitPhysicalRecord crcE (walOffUpd wt ws1) t p).1 = true →
      writerInv (EmitPhysicalRecord crcE (walOffUpd wt ws1) t p).2 := by
    intro t p hp hemok
    apply emit_preserves_inv _ _ _ _ hemok
    · rw [walOffUpd_dest, walOffUpd_block_counts, walOffUpd_block_offset]
      exact hinv
    · rw [walOffUpd_block_offset]
      omega
  split_ifs at h <;>
    first
      | (rename_i hcond
         refine hrec _ _ _ h hok (hinv2 _ _ ?_ hcond.1)
         simp only [List.length_take]
         omega)
      | (cases h
         exact hinv2 _ _ (by simp only [List.length_take]; omega) hok)

theorem addRecordLoop_inv (crcE : Nat → List Nat → Nat) (wt : Bool) :
    ∀ (fuel : Nat) (ws : WriterState) (ptr : List Nat) (first : Bool)
      (r : Bool × WriterState),
      addRecordLoop crcE wt fuel ws ptr first = some r → r.1 = true →
      writerInv ws → writerInv r.2 := by
  intro fuel
  induction fuel with
  | zero => intro ws ptr first r hr; simp [addRecordLoop] at hr
  | succ n ih =>
    intro ws ptr first r hr hok hinv
    rw [addRecordLoop_succ] at hr
    simp only [addRecordBody] at hr
    have hrec : ∀ ws2 rest r2,
        addRecordLoop crcE wt n ws2 rest false = some r2 → r2.1 = true →
        writerInv ws2 → writerInv r2.2 :=
      fun ws2 rest r2 hx => ih ws2 rest false r2 hx
    obtain ⟨hc, hb⟩ := hinv
    split_ifs at hr with h1 h2 h3
    · -- pad appended successfully, block switched
      refine addRecordEmit_inv crcE wt _ ptr first _ hrec ?_ ?_ r hr hok
      · have hcc := dest_append_ok_content ws.dest
          (List.replicate (kBlockSize - ws.block_offset) 0) h3
        dsimp only
        rw [hcc]
        simp only [List.length_append, List.length_replicate]
        simp only [kBlockSize, kHeaderSize] at *
        omega
      · dsimp only
        simp only [kBlockSize, kHeaderSize]
        omega
    · -- pad append failed: loop breaks with status false
      cases hr
      simp at hok
    · -- leftover = 0: block switched without pad
      refine addRecordEmit_inv crcE wt _ ptr first _ hrec ?_ ?_ r hr hok
      · dsimp only
        simp only [kBlockSize, kHeaderSize] at *
        omega
      · dsimp only
        simp only [kBlockSize, kHeaderSize]
        omega
    · -- enough room in the current block
      refine addRecordEmit_inv crcE wt ws ptr first _ hrec hc ?_ r hr hok
      simp only [kBlockSize, kHeaderSize] at *
      omega

/-- The offset recorded by `GetFirstEntryPhysicalOffset` at its call site
(where `avail = kBlockSize - block_offset - header_size` and
`file_size mod kBlockSize = block_offset`) always lands at least
`header_size` bytes into a block. -/
theorem GetFirstEntryPhysicalOffset_mod (fs hs avail : Nat) (hhs0 : 0 < hs)
    (hhsBS : hs < kBlockSize)
    (hsum : fs % kBlockSize + hs + avail = kBlockSize) :
    hs ≤ GetFirstEntryPhysicalOffset fs hs avail % kBlockSize := by
  unfold GetFirstEntryPhysicalOffset
  simp only [kBlockSize] at *
  split_ifs with hcase
  · omega
  · omega

theorem walOffUpd_walOffOk (wt : Bool) (ws1 : WriterState)
    (hinv : ws1.dest.content.length = ws1.block_counts * kBlockSize + ws1.block_offset)
    (hbo : ws1.block_offset + kHeaderSize ≤ kBlockSize)
    (hwo : walOffOk ws1.wal_offset_of_wb_content) :
    walOffOk (walOffUpd wt ws1).wal_offset_of_wb_content := by
  unfold walOffUpd
  split
  · intro off hoff
    cases hoff
    apply GetFirstEntryPhysicalOffset_mod
    · simp only [kHeaderSize]
      omega
    · simp only [kHeaderSize, kBlockSize]
      omega
    · simp only [kHeaderSize, kBlockSize] at *
      omega
  · exact hwo

theorem addRecordEmit_walOff (crcE : Nat → List Nat → Nat) (wt : Bool)
    (ws1 : WriterState) (ptr : List Nat) (first : Bool)
    (rec : WriterState → List Nat → Option (Bool × WriterState))
    (hrec : ∀ ws2 rest r2, rec ws2 rest = some r2 →
      writerInv ws2 → walOffOk ws2.wal_offset_of_wb_content →
      walOffOk r2.2.wal_offset_of_wb_content)
    (hinv : ws1.dest.content.length = ws1.block_counts * kBlockSize + ws1.block_offset)
    (hbo : ws1.block_offset + kHeaderSize ≤ kBlockSize)
    (hwo : walOffOk ws1.wal_offset_of_wb_content)
    (r : Bool × WriterState)
    (h : addRecordEmit crcE wt ws1 ptr first rec = some r) :
    walOffOk r.2.wal_offset_of_wb_content := by
  simp only [addRecordEmit] at h
  have hwo2 : walOffOk (walOffUpd wt ws1).wal_offset_of_wb_content :=
    walOffUpd_walOffOk wt ws1 hinv hbo hwo
  have hinv3 : ∀ t,
      (EmitPhysicalRecord crcE (walOffUpd wt ws1) t
        (ptr.take (min ptr.length (kBlockSize - ws1.block_offset - kHeaderSize)))).1 = true →
      writerInv (EmitPhysicalRecord crcE (walOffUpd wt ws1) t
        (ptr.take (min ptr.length (kBlockSize - ws1.block_offset - kHeaderSize)))).2 := by
    intro t hemok
    apply emit_preserves_inv _ _ _ _ hemok
    · rw [walOffUpd_dest, walOffUpd_block_counts, walOffUpd_block_offset]
      exact hinv
    · rw [walOffUpd_block_offset]
      simp only [List.length_take]
      omega
  split_ifs at h <;>
    first
      | (rename_i hcond
         exact hrec _ _ _ h (hinv3 _ hcond.1)
           (by rw [emit_wal_offset]; exact hwo2))
      | (cases h
         rw [emit_wal_offset]
         exact hwo2)

theorem addRecordLoop_walOff (crcE : Nat → List Nat → Nat) (wt : Bool) :
    ∀ (fuel : Nat) (ws : WriterState) (ptr : List Nat) (first : Bool)
      (r : Bool × WriterState),
      addRecordLoop crcE wt fuel ws ptr first = some r →
      writerInv ws → walOffOk ws.wal_offset_of_wb_content →
      walOffOk r.2.wal_offset_of_wb_content := by
  intro fuel
  induction fuel with
  | zero => intro ws ptr first r hr; simp [addRecordLoop] at hr
  | succ n ih =>
    intro ws ptr first r hr hinv hwo
    rw [addRecordLoop_succ] at hr
    simp only [addRecordBody] at hr
    have hrec : ∀ ws2 rest r2,
        addRecordLoop crcE wt n ws2 rest false = some r2 →
        writerInv ws2 → walOffOk ws2.wal_offset_of_wb_content →
        walOffOk r2.2.wal_offset_of_wb_content :=
      fun ws2 rest r2 hx => ih ws2 rest false r2 hx
    obtain ⟨hc, hb⟩ := hinv
    split_ifs at hr with h1 h2 h3
    · refine addRecordEmit_walOff crcE wt _ ptr first _ hrec ?_ ?_ ?_ r hr
      · have hcc := dest_append_ok_content ws.dest
          (List.replicate (kBlockSize - ws.block_offset) 0) h3
        dsimp only
        rw [hcc]
        simp only [List.length_append, List.length_replicate]
        simp only [kBlockSize, kHeaderSize] at *
        omega
      · dsimp only
        simp only [kBlockSize, kHeaderSize]
        omega
      · exact hwo
    · cases hr
      exact hwo
    · refine addRecordEmit_walOff crcE wt _ ptr first _ hrec ?_ ?_ ?_ r hr
      · dsimp only
        simp only [kBlockSize, kHeaderSize] at *
        omega
      · dsimp only
        simp only [kBlockSize, kHeaderSize]
        omega
      · exact hwo
    · refine addRecordEmit_walOff crcE wt ws ptr first _ hrec hc ?_ hwo r hr
      simp only [kBlockSize, kHeaderSize] at *
      omega

/-! ## Reachable writer states -/

/-- Writer states reachable from a freshly constructed writer through
successful `AddRecord` calls. -/
inductive ReachableWriter : WriterState → Prop
  | fresh (fails : Nat → Bool) (manual_flush : Bool) :
      ReachableWriter (freshWriter fails manual_flush)
  | step (crcE : Nat → List Nat → Nat) (wt : Bool) (ws : WriterState)
      (P : List Nat) (n : Nat) :
      ReachableWriter ws → (AddRecord crcE wt ws P n).1 = true →
      ReachableWriter (AddRecord crcE wt ws P n).2

/-- Every reachable writer state satisfies the block-alignment invariant,
and every offset it has recorded into a writer handle is at least
`header_size` past a block boundary. -/
theorem reachable_writer_props (ws : WriterState) (h : ReachableWriter ws) :
    writerInv ws ∧ walOffOk ws.wal_offset_of_wb_content := by
  induction h with
  | fresh fails mf =>
    constructor
    · constructor
      · show ([] : List Nat).length = 0 * kBlockSize + 0
        simp
      · show 0 ≤ kBlockSize
        exact Nat.zero_le _
    · intro off hoff
      simp [freshWriter] at hoff
  | step crcE wt ws P n hre hok ih =>
    unfold AddRecord at hok ⊢
    cases hloop : addRecordLoop crcE wt (2 * P.length + 2) ws P true with
    | none =>
      rw [hloop] at hok
      simp at hok
    | some r =>
      rw [hloop] at hok
      dsimp only at hok ⊢
      exact ⟨addRecordLoop_inv crcE wt _ ws P true r hloop hok ih.1,
             addRecordLoop_walOff crcE wt _ ws P true r hloop ih.1 ih.2⟩

/-! ## C4: block alignment after `AddRecord` -/

theorem walOffUpd_false (ws1 : WriterState) : walOffUpd false ws1 = ws1 := by
  unfold walOffUpd
  simp

/-- Writing a payload that exactly fills the remainder of the first block
(32768 - 7 = 32761 bytes from a fresh writer) leaves
`block_offset = 32768 = kBlockSize`. -/
theorem addRecord_block_filling (crcE : Nat → List Nat → Nat) (P : List Nat)
    (hP : P.length = 32761) :
    (AddRecord crcE false (freshWriter (fun _ => false) true) P 0).2.block_offset =
      32768 := by
  unfold AddRecord
  have hfuel : 2 * P.length + 2 = 65523 + 1 := by rw [hP]
  rw [hfuel, addRecordLoop_succ]
  simp only [addRecordBody, addRecordEmit, freshWriter, walOffUpd_false]
  norm_num [kBlockSize, kHeaderSize, hP]
  rw [emit_block_offset]
  simp [List.length_take, hP, kHeaderSize]

/-- C4 counterexample: `add_record` of a 32761-byte payload on a fresh
writer (the payload exactly fills the rest of the first block) completes
successfully but leaves `block_offset = 32768 = kBlockSize`, refuting the
claimed strict bound `block_offset < BLOCK_SIZE`. -/
theorem c4_block_offset_counterexample :
    ¬ ((AddRecord (fun _ l => l.sum) false (freshWriter (fun _ => false) true)
          (List.replicate 32761 0) 0).2.block_offset < kBlockSize) := by
  rw [addRecord_block_filling (fun _ l => l.sum) (List.replicate 32761 0) (by rw [List.length_replicate])]
  simp [kBlockSize]

/-- C4 (amended): after every successful `add_record` call on a reachable
writer state, `file_size() = block_counts * kBlockSize + block_offset` and
`block_offset ≤ kBlockSize`.  (The originally claimed strict bound
`block_offset < BLOCK_SIZE` fails when a record exactly fills the current
block, because `AddRecord` only normalizes `block_offset` at the start of
the next call.) -/
theorem c4_block_alignment_amended (crcE : Nat → List Nat → Nat) (wt : Bool)
    (ws : WriterState) (P : List Nat) (n : Nat)
    (hre : ReachableWriter ws) (hok : (AddRecord crcE wt ws P n).1 = true) :
    (AddRecord crcE wt ws P n).2.dest.content.length =
      (AddRecord crcE wt ws P n).2.block_counts * kBlockSize +
        (AddRecord crcE wt ws P n).2.block_offset ∧
    (AddRecord crcE wt ws P n).2.block_offset ≤ kBlockSize :=
  (reachable_writer_props _ (ReachableWriter.step crcE wt ws P n hre hok)).1

/-- Witness for C4 (amended) on a fresh writer and a two-byte record. -/
theorem c4_block_alignment_amended_witness :
    (AddRecord (fun _ l => l.sum) false (freshWriter (fun _ => false) true)
        [1, 2] 1).1 = true ∧
    ((AddRecord (fun _ l => l.sum) false (freshWriter (fun _ => false) true)
        [1, 2] 1).2.dest.content.length =
      (AddRecord (fun _ l => l.sum) false (freshWriter (fun _ => false) true)
          [1, 2] 1).2.block_counts * kBlockSize +
        (AddRecord (fun _ l => l.sum) false (freshWriter (fun _ => false) true)
            [1, 2] 1).2.block_offset ∧
    (AddRecord (fun _ l => l.sum) false (freshWriter (fun _ => false) true)
        [1, 2] 1).2.block_offset ≤ kBlockSize) :=
  ⟨rfl, c4_block_alignment_amended _ false _ [1, 2] 1
    (ReachableWriter.fresh _ _) rfl⟩

/-! ## C5: legality of recorded handle offsets -/

/-- C5: every payload offset that `add_record` records into a supplied
writer handle (computed by `GetFirstEntryPhysicalOffset` from the current
file size, header size and the space left in the current block) satisfies
`offset mod kBlockSize ≥ header_size`. -/
theorem c5_handle_offset_mod (crcE : Nat → List Nat → Nat) (ws : WriterState)
    (P : List Nat) (n : Nat) (off : Nat) (hre : ReachableWriter ws)
    (hset : (AddRecord crcE true ws P n).2.wal_offset_of_wb_content = some off) :
    kHeaderSize ≤ off % kBlockSize := by
  obtain ⟨hinv, hwo⟩ := reachable_writer_props ws hre
  unfold AddRecord at hset
  cases hloop : addRecordLoop crcE true (2 * P.length + 2) ws P true with
  | none =>
    rw [hloop] at hset
    dsimp only at hset
    exact hwo off hset
  | some r =>
    rw [hloop] at hset
    dsimp only at hset
    exact addRecordLoop_walOff crcE true _ ws P true r hloop hinv hwo off hset

/-- Witness for C5: the first record of a fresh writer records payload
offset 7, and `7 mod 32768 = 7 ≥ 7`. -/
theorem c5_handle_offset_mod_witness :
    (AddRecord (fun _ l => l.sum) true (freshWriter (fun _ => false) true)
        [1] 1).2.wal_offset_of_wb_content = some 7 ∧
    kHeaderSize ≤ 7 % kBlockSize :=
  ⟨rfl, c5_handle_offset_mod (fun _ l => l.sum) (freshWriter (fun _ => false) true)
    [1] 1 7 (ReachableWriter.fresh _ _) rfl⟩




/-! ## C6: the zero-length record -/

theorem emit_ok_of_nofail (crcE : Nat → List Nat → Nat) (ws : WriterState) (t : Nat)
    (p : List Nat) (hnf : ∀ k, ws.dest.fails k = false) :
    (EmitPhysicalRecord crcE ws t p).1 = true := by
  simp only [EmitPhysicalRecord, Dest.append, Dest.flush]
  split_ifs <;> simp_all

/-- C6: from `block_offset = 0` with the legacy 7-byte header,
`add_record` of the empty payload emits exactly 7 bytes — a header with
`length = 0` and `type = FULL` whose masked CRC32C covers only the single
type byte — and leaves `block_offset = 7`. -/
theorem c6_empty_record (crcE : Nat → List Nat → Nat)
    (hnil : ∀ c, crcE c [] = c) (wt : Bool) (ws : WriterState) (n : Nat)
    (hbo : ws.block_offset = 0) (hnf : ∀ k, ws.dest.fails k = false) :
    (AddRecord crcE wt ws [] n).1 = true ∧
    (AddRecord crcE wt ws [] n).2.dest.content =
      ws.dest.content ++ (EncodeFixed32 (Mask (crcE 0 [kFullType])) ++ [0, 0, kFullType]) ∧
    (EncodeFixed32 (Mask (crcE 0 [kFullType])) ++ [0, 0, kFullType]).length = 7 ∧
    (AddRecord crcE wt ws [] n).2.block_offset = 7 := by
  have hnf2 : ∀ k, (walOffUpd wt ws).dest.fails k = false := by
    rw [walOffUpd_dest]; exact hnf
  have hemok := emit_ok_of_nofail crcE (walOffUpd wt ws) kFullType [] hnf2
  have hkey : AddRecord crcE wt ws [] n =
      ((EmitPhysicalRecord crcE (walOffUpd wt ws) kFullType []).1,
       { (EmitPhysicalRecord crcE (walOffUpd wt ws) kFullType []).2 with num_entries := (EmitPhysicalRecord crcE (walOffUpd wt ws) kFullType []).2.num_entries + n }) := by
    unfold AddRecord
    rw [show 2 * (List.length ([] : List Nat)) + 2 = 1 + 1 from rfl, addRecordLoop_succ]
    simp only [addRecordBody, addRecordEmit, hbo]
    norm_num [kBlockSize, kHeaderSize]
  have hhdr : recordHeader crcE kFullType [] =
      EncodeFixed32 (Mask (crcE 0 [kFullType])) ++ [0, 0, kFullType] := by
    simp [recordHeader, typeCrc, hnil, kFullType]
  refine ⟨?_, ?_, ?_, ?_⟩
  · rw [hkey]
    exact hemok
  · rw [hkey]
    show (EmitPhysicalRecord crcE (walOffUpd wt ws) kFullType []).2.dest.content = _
    rw [emit_ok_content _ _ _ _ hemok, walOffUpd_dest, hhdr]
    simp
  · rfl
  · rw [hkey]
    show (EmitPhysicalRecord crcE (walOffUpd wt ws) kFullType []).2.block_offset = 7
    rw [emit_block_offset, walOffUpd_block_offset, hbo]
    rfl

/-- Witness for C6: empty record on a fresh writer with the identity-on-nil
checksum extension. -/
theorem c6_empty_record_witness :
    (AddRecord (fun c _ => c) false (freshWriter (fun _ => false) true) [] 5).1 = true ∧
    (AddRecord (fun c _ => c) false (freshWriter (fun _ => false) true) [] 5).2.dest.content =
      [] ++ (EncodeFixed32 (Mask 0) ++ [0, 0, kFullType]) ∧
    (EncodeFixed32 (Mask 0) ++ [0, 0, kFullType]).length = 7 ∧
    (AddRecord (fun c _ => c) false (freshWriter (fun _ => false) true) [] 5).2.block_offset = 7 :=
  c6_empty_record (fun c _ => c) (fun _ => rfl) false (freshWriter (fun _ => false) true) 5
    rfl (fun _ => rfl)

/-! ## C9: cache idempotence of `GetBlob`, and C3: head/tail CRC checks -/

theorem cacheLookup_insert (c : BlobCache) (k : List Nat × DefaultLogHandle)
    (v : List Nat) : cacheLookup (cacheInsert c k v) k = some v := by
  simp [cacheLookup, cacheInsert, List.find?]

/-- C9: two sequential `get_blob` calls for the same handle return
byte-identical payloads and the second performs no underlying file read. -/
theorem c9_get_blob_idempotent (crc16 : List Nat → Nat) (crcE : Nat → List Nat → Nat)
    (uid : List Nat) (whs : Nat) (file : List Nat) (cache : BlobCache)
    (hd : DefaultLogHandle) (r : List Nat) (c1 : BlobCache) (d : Bool)
    (h : GetBlob crc16 crcE uid whs file cache hd = (some r, c1, d)) :
    GetBlob crc16 crcE uid whs file c1 hd = (some r, c1, false) := by
  unfold GetBlob at h ⊢
  cases hl : cacheLookup cache (uid, hd) with
  | some b =>
    simp only [hl] at h
    simp only [Prod.mk.injEq, Option.some.injEq] at h
    obtain ⟨hb, hc, hD⟩ := h
    subst hb
    subst hc
    simp [hl]
  | none =>
    simp only [hl] at h
    split_ifs at h with g1 g2 g3 g4 g5
    all_goals
      first
        | (simp at h
           done)
        | (cases hs : ShrinkVal
              ((file.drop hd.offset).take (GetPhysicalLength hd.length hd.offset whs))
              (headSizeOf hd whs) whs with
           | none => simp [hs] at h
           | some b =>
             simp only [hs, Prod.mk.injEq, Option.some.injEq] at h
             obtain ⟨hb, hc, hD⟩ := h
             subst hb
             subst hc
             simp [cacheLookup_insert])
        | (simp only [Prod.mk.injEq, Option.some.injEq] at h
           obtain ⟨hb, hc, hD⟩ := h
           subst hb
           subst hc
           simp [cacheLookup_insert])

/-- Witness for C9: a single-block 3-byte record served from the cache on
the second call. -/
theorem c9_get_blob_idempotent_witness :
    GetBlob (fun l => l.length) (fun c _ => c) [5] 7
        [9, 9, 9, 9, 9, 9, 9, 1, 2, 3] [(([5], ⟨7, 3, 3, 0⟩), [1, 2, 3])] ⟨7, 3, 3, 0⟩ =
      (some [1, 2, 3], [(([5], ⟨7, 3, 3, 0⟩), [1, 2, 3])], false) :=
  c9_get_blob_idempotent (fun l => l.length) (fun c _ => c) [5] 7
    [9, 9, 9, 9, 9, 9, 9, 1, 2, 3] [] ⟨7, 3, 3, 0⟩ [1, 2, 3]
    [(([5], ⟨7, 3, 3, 0⟩), [1, 2, 3])] true
    (by simp [GetBlob, cacheLookup, cacheInsert, GetPhysicalLength, headSizeOf,
          tailSizeOf, kBlockSize, middleScan_eq_true])

/-- C3: in `get_blob`, a head-CRC16 mismatch (whenever `head_size > 0`) or
a tail-CRC16 mismatch (whenever `tail_size > 0`) is a hard failure —
`get_blob` does not return OK with the corrupt payload — and a record with
`length ≤ head_size` has `tail_size = 0`, hence no tail check. -/
theorem c3_head_tail_crc_checks (crc16 : List Nat → Nat) (crcE : Nat → List Nat → Nat)
    (uid : List Nat) (whs : Nat) (file : List Nat) (cache : BlobCache)
    (hd : DefaultLogHandle) :
    (cacheLookup cache (uid, hd) = none →
      headSizeOf hd whs ≠ 0 →
      crc16 (((file.drop hd.offset).take (GetPhysicalLength hd.length hd.offset whs)).take
        (headSizeOf hd whs)) ≠ hd.head_crc →
      (GetBlob crc16 crcE uid whs file cache hd).1 = none) ∧
    (cacheLookup cache (uid, hd) = none →
      tailSizeOf hd whs ≠ 0 →
      crc16 (((file.drop hd.offset).take (GetPhysicalLength hd.length hd.offset whs)).drop
        (((file.drop hd.offset).take (GetPhysicalLength hd.length hd.offset whs)).length -
          tailSizeOf hd whs)) ≠ hd.tail_crc →
      (GetBlob crc16 crcE uid whs file cache hd).1 = none) ∧
    (hd.length ≤ headSizeOf hd whs → tailSizeOf hd whs = 0) := by
  refine ⟨?_, ?_, ?_⟩
  · intro hl hhs hcrc
    simp only [GetBlob, hl]
    split_ifs with g1 g2 g3 g4 g5
    all_goals
      first
        | rfl
        | exact absurd ⟨hhs, hcrc⟩ g2
  · intro hl hts hcrc
    simp only [GetBlob, hl]
    split_ifs with g1 g2 g3 g4 g5
    all_goals
      first
        | rfl
        | exact absurd ⟨hts, hcrc⟩ g3
  · intro hle
    unfold tailSizeOf headSizeOf
    unfold headSizeOf at hle
    split_ifs at * with hp
    all_goals
      first
        | rfl
        | simp [Nat.sub_eq_zero_of_le hle]

/-- Witness for C3: a corrupted head CRC and a corrupted tail CRC are
rejected; a single-block handle has no tail check. -/
theorem c3_head_tail_crc_checks_witness :
    (GetBlob (fun l => l.length) (fun c _ => c) [] 7
        [9, 9, 9, 9, 9, 9, 9, 1, 2, 3] [] ⟨7, 3, 99, 0⟩).1 = none ∧
    (GetBlob (fun l => l.length) (fun c _ => c) [] 7 [] [] ⟨7, 32762, 0, 999⟩).1 = none ∧
    tailSizeOf ⟨7, 3, 0, 0⟩ 7 = 0 :=
  ⟨(c3_head_tail_crc_checks (fun l => l.length) (fun c _ => c) [] 7
      [9, 9, 9, 9, 9, 9, 9, 1, 2, 3] [] ⟨7, 3, 99, 0⟩).1 rfl (by decide) (by decide),
   (c3_head_tail_crc_checks (fun l => l.length) (fun c _ => c) [] 7
      [] [] ⟨7, 32762, 0, 999⟩).2.1 rfl (by decide) (by decide),
   (c3_head_tail_crc_checks (fun l => l.length) (fun c _ => c) [] 7
      [] [] ⟨7, 3, 0, 0⟩).2.2 (by decide)⟩

end TerarkWal
